import Mathlib

/-!
Verification development for the transaction-storage pallet
(src/pallets/transaction-storage/src/lib.rs).

The pallet's storage items are modelled as explicit fields of a `State`
record, machine integers as `Nat` with explicit saturation / checked
operations at the widths used by the source (u32 / u64), and the external
host primitives (hashing, trie-root construction, proof verification,
chunk selection, the frame-system block number / parent hash / extrinsic
index and the configured authorizer origin check) as fields of an `Env`
record, since the source only calls them through an opaque interface.

Fallible dispatchables are embedded as functions
`State → Except Error Unit × State` returning, next to the result, the
state after whatever storage writes the body performed.
-/

namespace TxStorage

/-- `CHUNK_SIZE` from `sp_transaction_storage_proof`. -/
def CHUNK_SIZE : Nat := 256

/-- One more than the largest `u32` value. -/
def U32_LIMIT : Nat := 2 ^ 32

/-- One more than the largest `u64` value. -/
def U64_LIMIT : Nat := 2 ^ 64

/-- `u32::saturating_add`. -/
def satAdd32 (a b : Nat) : Nat := min (a + b) (U32_LIMIT - 1)

/-- `u64::saturating_add`. -/
def satAdd64 (a b : Nat) : Nat := min (a + b) (U64_LIMIT - 1)

/-- `checked_sub` at any width: `Nat` values never go below the minimum of
the machine type, so only underflow is checked. -/
def checkedSub (a b : Nat) : Option Nat := if b ≤ a then some (a - b) else none

/-- `checked_add` on block numbers (`u32` in the runtime). -/
def checkedAddBlock (a b : Nat) : Option Nat :=
  if a + b < U32_LIMIT then some (a + b) else none

/-- Raw bytes (a `Vec<u8>` or `&[u8]` value). -/
abbrev Bytes := List Nat

/-- `PreimageHash = [u8; 32]`. -/
abbrev PreimageHash := Bytes

/-- `<BlakeTwo256 as Hash>::Output`. -/
abbrev Hash256 := Bytes

/-- `AuthorizationExtent { transactions: u32, bytes: u64 }`. -/
structure AuthorizationExtent where
  transactions : Nat
  bytes : Nat
deriving DecidableEq, Repr

/-- `AuthorizationUsage { used, unused }`. -/
structure AuthorizationUsage where
  used : AuthorizationExtent
  unused : AuthorizationExtent
deriving DecidableEq, Repr

/-- `Default::default()` for `AuthorizationExtent`. -/
def AuthorizationExtent.zero : AuthorizationExtent := ⟨0, 0⟩

/-- `Default::default()` for `AuthorizationUsage`. -/
def AuthorizationUsage.zero : AuthorizationUsage :=
  ⟨AuthorizationExtent.zero, AuthorizationExtent.zero⟩

/-- `AuthorizationScope<AccountId>`. -/
inductive AuthorizationScope (A : Type) where
  | Account (who : A)
  | Preimage (hash : PreimageHash)
deriving DecidableEq, Repr

/-- `Authorization<AccountId>`. -/
structure Authorization (A : Type) where
  scope : AuthorizationScope A
  extent : AuthorizationExtent
deriving DecidableEq, Repr

/-- `TransactionInfo`. -/
structure TransactionInfo where
  chunk_root : Hash256
  content_hash : Hash256
  size : Nat
  block_chunks : Nat
deriving DecidableEq, Repr

/-- `num_chunks`: the `u32` argument is widened to `u64`, `CHUNK_SIZE` is
saturating-added and `1` saturating-subtracted before division; the final
`as u32` cast truncates. -/
def num_chunks (bytes : Nat) : Nat :=
  ((satAdd64 bytes CHUNK_SIZE - 1) / CHUNK_SIZE) % U32_LIMIT

/-- The pallet `Error<T>` enum, together with the two framework errors the
dispatchables surface (`DispatchError::BadOrigin`, `ArithmeticError::Overflow`). -/
inductive Error where
  | NotAuthorized
  | RenewedNotFound
  | EmptyTransaction
  | UnexpectedProof
  | InvalidProof
  | MissingStateData
  | DoubleCheck
  | TransactionTooLarge
  | TooManyTransactions
  | BadContext
  | TooManyAuthorizations
  | BadOrigin
  | ArithmeticOverflow
deriving DecidableEq, Repr

/-- `frame_system::RawOrigin`. -/
inductive Origin (A : Type) where
  | Root
  | Signed (who : A)
  | NoOrigin
deriving DecidableEq, Repr

/-- `sp_transaction_storage_proof::TransactionStorageProof`. -/
structure TransactionStorageProof where
  chunk : Bytes
  proof : List Bytes
deriving DecidableEq, Repr

/-- The pallet `Config` constants used by the embedded operations. -/
structure Config where
  maxBlockTransactions : Nat
  maxTransactionSize : Nat
  maxBlockAuthorizationExpiries : Nat
  authorizationPeriod : Nat
  storagePeriod : Nat
deriving Repr

/-- The pallet's persisted storage items.  `AuthorizationUsageByScope` is a
`ValueQuery` map but `mutate_exists` distinguishes present from absent
entries, so it is modelled with `Option`; reads default absent entries to
`AuthorizationUsage.zero`.  `AuthorizationsByExpiry` and `ChunkCount` are
`ValueQuery` maps whose defaults are `[]` and `0`. -/
structure State (A : Type) where
  authorizationUsageByScope : AuthorizationScope A → Option AuthorizationUsage
  authorizationsByExpiry : Nat → List (Authorization A)
  transactions : Nat → Option (List TransactionInfo)
  chunkCount : Nat → Nat
  blockTransactions : List TransactionInfo
  proofChecked : Bool

/-- The host / frame-system environment the pallet reads through opaque
interfaces: hashing, ordered-trie root construction, proof verification,
`random_chunk`, `encode_index`, the current block number, the parent hash,
the current extrinsic index and the configured `Authorizer` origin check. -/
structure Env (A : Type) where
  blockNumber : Nat
  parentHash : Bytes
  extrinsicIndex : Option Nat
  blake2_256 : Bytes → Hash256
  orderedTrieRoot : List Bytes → Hash256
  randomChunk : Bytes → Nat → Nat
  verifyProof : Hash256 → List Bytes → Bytes → Bytes → Bool
  encodeIndex : Nat → Bytes
  authorizerOk : Origin A → Bool

/-- `data.chunks(CHUNK_SIZE)`; the `Nat` fuel is only a structural-recursion
bound, always at least the list length. -/
def chunkListGo : Nat → Bytes → List Bytes
  | 0, _ => []
  | fuel + 1, d => if d.isEmpty then [] else d.take CHUNK_SIZE :: chunkListGo fuel (d.drop CHUNK_SIZE)

/-- `data.chunks(CHUNK_SIZE).map(|c| c.to_vec()).collect()`. -/
def chunkList (data : Bytes) : List Bytes := chunkListGo data.length data

/-- The loop of rust `slice::binary_search_by`, with both the `Ok(mid)` and
the `Err(left)` outcome mapped to the returned index, exactly as the
`match` in `check_proof` does.  Each iteration computes
`mid = left + (right - left) / 2` and narrows to `[mid+1, right)`,
`[left, mid)` or returns `mid`.  The `Nat` fuel is only a
structural-recursion bound; it never runs out when it starts at least at
`right - left`. -/
def bsGo (f : Nat → Nat) (target : Nat) : Nat → Nat → Nat → Nat
  | 0, left, _ => left
  | fuel + 1, left, right =>
    if left < right then
      if f (left + (right - left) / 2) < target then
        bsGo f target fuel (left + (right - left) / 2 + 1) right
      else if target < f (left + (right - left) / 2) then
        bsGo f target fuel left (left + (right - left) / 2)
      else left + (right - left) / 2
    else left

/-- `infos.binary_search_by_key(&target, |info| info.block_chunks)` with the
`Ok`/`Err` payloads merged, as in `check_proof`. -/
def binarySearchByKey (keys : List Nat) (target : Nat) : Nat :=
  bsGo (fun i => keys.getD i 0) target keys.length 0 keys.length

/-- The lookup inside `check_proof` (lines 372-386): binary-search the
block's list by `block_chunks`, fetch the entry at the resulting index, and
pair it with `selected_chunk_index.saturating_sub(prev_chunks)` where
`prev_chunks = info.block_chunks.saturating_sub(num_chunks(info.size))`.
`none` corresponds to the `Err(MissingStateData)` outcome of `infos.get`. -/
def lookupChunkInfo (infos : List TransactionInfo) (selected : Nat) :
    Option (TransactionInfo × Nat) :=
  let index := binarySearchByKey (infos.map fun t => t.block_chunks) selected
  match infos.get? index with
  | none => none
  | some info =>
    let chunks := num_chunks info.size
    let prev_chunks := info.block_chunks - chunks
    some (info, selected - prev_chunks)

/-- The `try_mutate` body of `use_authorization` applied to one scope:
checked-subtract one transaction and `size` bytes from `unused`, failing
with `NotAuthorized`, and saturating-add them to `used`.  On failure
`try_mutate` writes nothing back. -/
def consumeAuthorization {A : Type} [DecidableEq A] (scope : AuthorizationScope A)
    (size : Nat) (s : State A) : Except Error Unit × State A :=
  let usage := (s.authorizationUsageByScope scope).getD AuthorizationUsage.zero
  match checkedSub usage.unused.transactions 1 with
  | none => (.error .NotAuthorized, s)
  | some unusedTx =>
    match checkedSub usage.unused.bytes size with
    | none => (.error .NotAuthorized, s)
    | some unusedBytes =>
      let usage' : AuthorizationUsage :=
        { used := ⟨satAdd32 usage.used.transactions 1, satAdd64 usage.used.bytes size⟩,
          unused := ⟨unusedTx, unusedBytes⟩ }
      (.ok (),
        { s with authorizationUsageByScope :=
            Function.update s.authorizationUsageByScope scope (some usage') })

/-- `use_authorization` (lines 608-627): resolve the scope from the origin
(signed caller → account scope, none → preimage scope, anything else →
`BadOrigin`) and consume from it. -/
def use_authorization {A : Type} [DecidableEq A] (origin : Origin A)
    (hash : PreimageHash) (size : Nat) (s : State A) : Except Error Unit × State A :=
  match origin with
  | .Signed who => consumeAuthorization (AuthorizationScope.Account who) size s
  | .NoOrigin => consumeAuthorization (AuthorizationScope.Preimage hash) size s
  | _ => (.error .BadOrigin, s)

/-- `store` (lines 261-302).  The `sp_io::transaction_index::index` host
call only emits an indexing side effect outside pallet storage and is not
modelled.  The final `try_push` cannot fail after the `ensure!` on the
length, since the bound of the `BoundedVec` is the same constant. -/
def store {A : Type} [DecidableEq A] (cfg : Config) (env : Env A)
    (origin : Origin A) (data : Bytes) (s : State A) : Except Error Unit × State A :=
  if data.isEmpty then (.error .EmptyTransaction, s)
  else if ¬ data.length ≤ cfg.maxTransactionSize then (.error .TransactionTooLarge, s)
  else
    let content_hash := env.blake2_256 data
    match use_authorization origin content_hash data.length s with
    | (.error e, s1) => (.error e, s1)
    | (.ok _, s1) =>
      let chunk_count := num_chunks data.length
      let root := env.orderedTrieRoot (chunkList data)
      match env.extrinsicIndex with
      | none => (.error .BadContext, s1)
      | some _ =>
        let transactions := s1.blockTransactions
        if ¬ transactions.length < cfg.maxBlockTransactions then
          (.error .TooManyTransactions, s1)
        else
          let total_chunks :=
            satAdd32 (((transactions.getLast?).map fun t => t.block_chunks).getD 0) chunk_count
          let info : TransactionInfo :=
            { chunk_root := root, content_hash := content_hash,
              size := data.length, block_chunks := total_chunks }
          (.ok (), { s1 with blockTransactions := transactions ++ [info] })

/-- `renew` (lines 312-348). -/
def renew {A : Type} [DecidableEq A] (cfg : Config) (env : Env A)
    (origin : Origin A) (block : Nat) (index : Nat) (s : State A) :
    Except Error Unit × State A :=
  match s.transactions block with
  | none => (.error .RenewedNotFound, s)
  | some infos =>
    match infos.get? index with
    | none => (.error .RenewedNotFound, s)
    | some info =>
      match use_authorization origin info.content_hash info.size s with
      | (.error e, s1) => (.error e, s1)
      | (.ok _, s1) =>
        match env.extrinsicIndex with
        | none => (.error .BadContext, s1)
        | some _ =>
          let transactions := s1.blockTransactions
          if ¬ transactions.length < cfg.maxBlockTransactions then
            (.error .TooManyTransactions, s1)
          else
            let chunks := num_chunks info.size
            let total_chunks :=
              satAdd32 (((transactions.getLast?).map fun t => t.block_chunks).getD 0) chunks
            let info' : TransactionInfo :=
              { chunk_root := info.chunk_root, content_hash := info.content_hash,
                size := info.size, block_chunks := total_chunks }
            (.ok (), { s1 with blockTransactions := transactions ++ [info'] })

/-- `check_proof` (lines 358-400).  `target_number` is
`block_number().saturating_sub(StoragePeriod)` (`Nat` subtraction is
saturating). -/
def check_proof {A : Type} [DecidableEq A] (cfg : Config) (env : Env A)
    (origin : Origin A) (proof : TransactionStorageProof) (s : State A) :
    Except Error Unit × State A :=
  match origin with
  | .NoOrigin =>
    if s.proofChecked then (.error .DoubleCheck, s)
    else
      let target_number := env.blockNumber - cfg.storagePeriod
      if target_number = 0 then (.error .UnexpectedProof, s)
      else
        let total_chunks := s.chunkCount target_number
        if total_chunks = 0 then (.error .UnexpectedProof, s)
        else
          let selected_chunk_index := env.randomChunk env.parentHash total_chunks
          match s.transactions target_number with
          | none => (.error .MissingStateData, s)
          | some infos =>
            match lookupChunkInfo infos selected_chunk_index with
            | none => (.error .MissingStateData, s)
            | some (info, chunk_index) =>
              if env.verifyProof info.chunk_root proof.proof
                  (env.encodeIndex chunk_index) proof.chunk then
                (.ok (), { s with proofChecked := true })
              else (.error .InvalidProof, s)
  | _ => (.error .BadOrigin, s)

/-- `authorize` (lines 529-557): compute the expiry by checked addition,
credit the scope's `unused` extent by saturating addition, then try to
append the authorization to the bounded per-expiry list.  On a full list
the `mutate` writes the list back unchanged and the usage credit stays, as
in the source. -/
def authorize {A : Type} [DecidableEq A] (cfg : Config) (env : Env A)
    (scope : AuthorizationScope A) (transactions : Nat) (bytes : Nat)
    (s : State A) : Except Error Unit × State A :=
  match checkedAddBlock env.blockNumber cfg.authorizationPeriod with
  | none => (.error .ArithmeticOverflow, s)
  | some expiry =>
    let usage := (s.authorizationUsageByScope scope).getD AuthorizationUsage.zero
    let usage' : AuthorizationUsage :=
      { usage with unused := ⟨satAdd32 usage.unused.transactions transactions,
                              satAdd64 usage.unused.bytes bytes⟩ }
    let s1 : State A :=
      { s with authorizationUsageByScope :=
          Function.update s.authorizationUsageByScope scope (some usage') }
    let auths := s1.authorizationsByExpiry expiry
    let auths' := auths ++ [⟨scope, ⟨transactions, bytes⟩⟩]
    if auths.length < cfg.maxBlockAuthorizationExpiries then
      (.ok (),
        { s1 with authorizationsByExpiry :=
            Function.update s1.authorizationsByExpiry expiry auths' })
    else (.error .TooManyAuthorizations, s1)

/-- `authorize_account` (lines 406-420), event emission elided. -/
def authorize_account {A : Type} [DecidableEq A] (cfg : Config) (env : Env A)
    (origin : Origin A) (who : A) (transactions : Nat) (bytes : Nat)
    (s : State A) : Except Error Unit × State A :=
  if env.authorizerOk origin then
    authorize cfg env (AuthorizationScope.Account who) transactions bytes s
  else (.error .BadOrigin, s)

/-- `authorize_preimage` (lines 426-437): always a one-transaction grant. -/
def authorize_preimage {A : Type} [DecidableEq A] (cfg : Config) (env : Env A)
    (origin : Origin A) (hash : PreimageHash) (bytes : Nat)
    (s : State A) : Except Error Unit × State A :=
  if env.authorizerOk origin then
    authorize cfg env (AuthorizationScope.Preimage hash) 1 bytes s
  else (.error .BadOrigin, s)

/-- `unused_account_authorization_extent` (lines 560-562): a pure read, so
by construction it is total and leaves the state untouched; an absent
usage record reads as the `ValueQuery` default. -/
def unused_account_authorization_extent {A : Type} (s : State A) (who : A) :
    AuthorizationExtent :=
  ((s.authorizationUsageByScope (AuthorizationScope.Account who)).getD
    AuthorizationUsage.zero).unused

/-- `unused_preimage_authorization_extent` (lines 565-567). -/
def unused_preimage_authorization_extent {A : Type} (s : State A)
    (hash : PreimageHash) : AuthorizationExtent :=
  ((s.authorizationUsageByScope (AuthorizationScope.Preimage hash)).getD
    AuthorizationUsage.zero).unused

/-- The `mutate_exists` body of `expire_authorizations` for a single
expiring authorization: if the scope has a usage record, compute the
unused portions from the pre-update `used`, saturating-subtract the extent
from `used` and the unused portions from `unused`, and remove the record
if it became all-zero. -/
def expireOne {A : Type} [DecidableEq A] (auth : Authorization A)
    (m : AuthorizationScope A → Option AuthorizationUsage) :
    AuthorizationScope A → Option AuthorizationUsage :=
  match m auth.scope with
  | none => m
  | some usage =>
    let unused_transactions := auth.extent.transactions - usage.used.transactions
    let unused_bytes := auth.extent.bytes - usage.used.bytes
    let usage' : AuthorizationUsage :=
      { used := ⟨usage.used.transactions - auth.extent.transactions,
                 usage.used.bytes - auth.extent.bytes⟩,
        unused := ⟨usage.unused.transactions - unused_transactions,
                   usage.unused.bytes - unused_bytes⟩ }
    Function.update m auth.scope
      (if usage' = AuthorizationUsage.zero then none else some usage')

/-- `expire_authorizations` (lines 569-606): `take` the block's
authorization list and run `expireOne` over it in order. -/
def expire_authorizations {A : Type} [DecidableEq A] (block : Nat)
    (s : State A) : State A :=
  let auths := s.authorizationsByExpiry block
  { s with
    authorizationsByExpiry := Function.update s.authorizationsByExpiry block [],
    authorizationUsageByScope :=
      auths.foldl (fun m a => expireOne a m) s.authorizationUsageByScope }

/-- `on_finalize` (lines 215-233).  The `assert!` is modelled as `none`
(the panic); the asserted condition first `take`s the proof-checked flag,
so the flag is cleared in every non-panicking run.  `n` is the block
number the hook is called with, which the framework guarantees equals
`frame_system::block_number()` read inside the assertion. -/
def on_finalize {A : Type} (cfg : Config) (n : Nat) (s : State A) :
    Option (State A) :=
  if s.proofChecked = true ∨ n - cfg.storagePeriod = 0 ∨
      s.chunkCount (n - cfg.storagePeriod) = 0 then
    let transactions := s.blockTransactions
    let total_chunks := ((transactions.getLast?).map fun t => t.block_chunks).getD 0
    let s1 : State A := { s with blockTransactions := [], proofChecked := false }
    some (if total_chunks ≠ 0 then
      { s1 with
        chunkCount := Function.update s1.chunkCount n total_chunks,
        transactions := Function.update s1.transactions n (some transactions) }
    else s1)
  else none

/-- The five dispatchable calls of the pallet. -/
inductive Call (A : Type) where
  | store (origin : Origin A) (data : Bytes)
  | renew (origin : Origin A) (block : Nat) (index : Nat)
  | check_proof (origin : Origin A) (proof : TransactionStorageProof)
  | authorize_account (origin : Origin A) (who : A) (transactions : Nat) (bytes : Nat)
  | authorize_preimage (origin : Origin A) (hash : PreimageHash) (bytes : Nat)

/-- The body of each dispatchable, with the state it leaves behind. -/
def callBody {A : Type} [DecidableEq A] (cfg : Config) (env : Env A) :
    Call A → State A → Except Error Unit × State A
  | .store o d => store cfg env o d
  | .renew o b i => renew cfg env o b i
  | .check_proof o p => check_proof cfg env o p
  | .authorize_account o w t b => authorize_account cfg env o w t b
  | .authorize_preimage o h b => authorize_preimage cfg env o h b

/-- Modelled from the spec: the dispatch framework that invokes the pallet
calls is out of scope of the source file, and per the spec every failure
"aborts the triggering call with no partial mutation (atomic call
semantics)" — FRAME runs every dispatchable inside a storage transaction
that is rolled back when the call returns an error.  `dispatchCall` wraps
a call body in that transactional layer. -/
def dispatchCall {A : Type} [DecidableEq A] (cfg : Config) (env : Env A)
    (c : Call A) (s : State A) : Except Error Unit × State A :=
  match callBody cfg env c s with
  | (.ok u, s') => (.ok u, s')
  | (.error e, _) => (.error e, s)

/-- The accumulator invariant maintained by `store` and `renew`: each
entry's `block_chunks` is the saturating sum of the previous entry's
`block_chunks` (or `prev` for the first entry) and `num_chunks` of its
size. -/
def satChainB (prev : Nat) : List TransactionInfo → Bool
  | [] => true
  | t :: rest =>
    (t.block_chunks == satAdd32 prev (num_chunks t.size)) && satChainB t.block_chunks rest

/-- The exact (non-saturating) cumulative-count structure of a committed
block list whose counts never reach the `u32` bound, with every stored
blob non-empty (as `store` guarantees): each entry's `block_chunks` is the
previous count plus `num_chunks` of its size. -/
def chunksChainB (prev : Nat) : List TransactionInfo → Bool
  | [] => true
  | t :: rest =>
    (t.block_chunks == prev + num_chunks t.size) && decide (0 < t.size) &&
      decide (t.size < U32_LIMIT) && chunksChainB t.block_chunks rest

/-! Concrete sample values, used to instantiate the theorems below on
executable inputs. -/

/-- A block list of three items of 512, 768 and 256 bytes, hence 2, 3 and 1
chunks and cumulative counts 2, 5, 6. -/
def exInfos : List TransactionInfo :=
  [⟨[1], [2], 512, 2⟩, ⟨[3], [4], 768, 5⟩, ⟨[5], [6], 256, 6⟩]

/-- A sample configuration. -/
def exCfg : Config :=
  { maxBlockTransactions := 4, maxTransactionSize := 1000,
    maxBlockAuthorizationExpiries := 2, authorizationPeriod := 10,
    storagePeriod := 5 }

/-- The sample configuration with no room for authorization expiries. -/
def exCfgNoAuths : Config := { exCfg with maxBlockAuthorizationExpiries := 0 }

/-- A sample environment over `Nat` account ids. -/
def exEnv : Env Nat :=
  { blockNumber := 7, parentHash := [0, 0, 0, 0, 0, 0, 0, 0],
    extrinsicIndex := some 1,
    blake2_256 := fun _ => [7],
    orderedTrieRoot := fun _ => [9],
    randomChunk := fun _ _ => 4,
    verifyProof := fun _ _ _ _ => true,
    encodeIndex := fun n => [n],
    authorizerOk := fun o => decide (o = Origin.Root) }

/-- The all-empty state. -/
def emptyState : State Nat :=
  { authorizationUsageByScope := fun _ => none,
    authorizationsByExpiry := fun _ => [],
    transactions := fun _ => none,
    chunkCount := fun _ => 0,
    blockTransactions := [],
    proofChecked := false }

/-- A state holding the sample block list at block 2 (the proof target for
block 7 with storage period 5). -/
def exProofState : State Nat :=
  { emptyState with
    transactions := fun b => if b = 2 then some exInfos else none,
    chunkCount := fun b => if b = 2 then 6 else 0 }

/-- A state whose accumulator holds the sample list and whose proof flag is
set, ready for finalization. -/
def exAccumState : State Nat :=
  { emptyState with blockTransactions := exInfos, proofChecked := true }

/-- The state `on_finalize` produces from `exAccumState` at block 9. -/
def exCommittedState : State Nat := (on_finalize exCfg 9 exAccumState).getD emptyState

/-- A usage map granting scope `Account 1` one transaction and 100 bytes,
of which one transaction and 60 bytes are already used. -/
def exUsageMap : AuthorizationScope Nat → Option AuthorizationUsage :=
  fun sc => if sc = AuthorizationScope.Account 1 then some ⟨⟨1, 60⟩, ⟨0, 40⟩⟩ else none

/-- An authorization of one transaction and 100 bytes for `Account 1`. -/
def exAuth : Authorization Nat := ⟨AuthorizationScope.Account 1, ⟨1, 100⟩⟩

/-- A state in which `Account 1` has one unused transaction of up to 100
bytes. -/
def exGrantState : State Nat :=
  { emptyState with
    authorizationUsageByScope :=
      fun sc => if sc = AuthorizationScope.Account 1 then
        some ⟨⟨0, 0⟩, ⟨1, 100⟩⟩ else none }

/-- The sample environment at a block number for which adding the
authorization period overflows `u32`. -/
def exEnvOverflow : Env Nat := { exEnv with blockNumber := 2 ^ 32 }

/-! Theorems. -/

/-- Claim C8: for every `u32` byte count `n`, `num_chunks n` equals
`ceil(n / CHUNK_SIZE)` — it is the least `m` with `n ≤ m * CHUNK_SIZE` —
`num_chunks 0 = 0`, and the internal 64-bit computation never saturates
(the saturating add equals the exact add, and the result fits `u32` so the
closing cast truncates nothing). -/
theorem num_chunks_ceil (n : Nat) (h : n < U32_LIMIT) :
    satAdd64 n CHUNK_SIZE = n + CHUNK_SIZE ∧
    num_chunks n = (n + CHUNK_SIZE - 1) / CHUNK_SIZE ∧
    (n + CHUNK_SIZE - 1) / CHUNK_SIZE < U32_LIMIT ∧
    n ≤ num_chunks n * CHUNK_SIZE ∧
    (∀ m : Nat, n ≤ m * CHUNK_SIZE → num_chunks n ≤ m) ∧
    num_chunks 0 = 0 := by
  have h32 : U32_LIMIT = 4294967296 := by norm_num [U32_LIMIT]
  have h64 : U64_LIMIT = 18446744073709551616 := by norm_num [U64_LIMIT]
  simp only [num_chunks, satAdd64, CHUNK_SIZE, h32, h64] at *
  refine ⟨by omega, by omega, by omega, by omega, ?_, by omega⟩
  intro m hm
  omega

/-- Closed instance of `num_chunks_ceil` at `n = 1000`. -/
theorem num_chunks_ceil_witness :
    1000 < U32_LIMIT ∧
    (satAdd64 1000 CHUNK_SIZE = 1000 + CHUNK_SIZE ∧
     num_chunks 1000 = (1000 + CHUNK_SIZE - 1) / CHUNK_SIZE ∧
     (1000 + CHUNK_SIZE - 1) / CHUNK_SIZE < U32_LIMIT ∧
     1000 ≤ num_chunks 1000 * CHUNK_SIZE ∧
     (∀ m : Nat, 1000 ≤ m * CHUNK_SIZE → num_chunks 1000 ≤ m) ∧
     num_chunks 0 = 0) :=
  ⟨by decide, num_chunks_ceil 1000 (by decide)⟩

/-- Claim C9: the block-end assertion in `on_finalize` fires (the hook panics,
modelled as `none`) exactly when no proof was checked this block, the
target block number is non-zero and the target block's stored chunk count
is non-zero. -/
theorem on_finalize_assert {A : Type} (cfg : Config) (n : Nat) (s : State A) :
    on_finalize cfg n s = none ↔
      s.proofChecked = false ∧ n - cfg.storagePeriod ≠ 0 ∧
        s.chunkCount (n - cfg.storagePeriod) ≠ 0 := by
  unfold on_finalize
  split
  case isTrue h =>
    simp only [reduceCtorEq, false_iff]
    intro hc
    rcases h with h | h | h
    · exact absurd h (by simp [hc.1])
    · exact hc.2.1 h
    · exact hc.2.2 h
  case isFalse h =>
    push_neg at h
    simp only [true_iff]
    refine ⟨?_, h.2.1, h.2.2⟩
    rcases hb : s.proofChecked with _ | _
    · rfl
    · exact absurd hb h.1

/-- Claim C10: the unused-extent queries are pure reads (total functions of the
state, by construction), and a scope with no usage record reads as the
all-zero extent. -/
theorem unused_extent_default {A : Type} (s : State A) (who : A)
    (hash : PreimageHash)
    (ha : s.authorizationUsageByScope (AuthorizationScope.Account who) = none)
    (hp : s.authorizationUsageByScope (AuthorizationScope.Preimage hash) = none) :
    unused_account_authorization_extent s who = AuthorizationExtent.zero ∧
    unused_preimage_authorization_extent s hash = AuthorizationExtent.zero := by
  simp [unused_account_authorization_extent, unused_preimage_authorization_extent,
    ha, hp, AuthorizationUsage.zero]

/-- Closed instance of `unused_extent_default` on the empty state. -/
theorem unused_extent_default_witness :
    emptyState.authorizationUsageByScope (AuthorizationScope.Account 0) = none ∧
    emptyState.authorizationUsageByScope (AuthorizationScope.Preimage []) = none ∧
    (unused_account_authorization_extent emptyState 0 = AuthorizationExtent.zero ∧
     unused_preimage_authorization_extent emptyState [] = AuthorizationExtent.zero) :=
  ⟨rfl, rfl, unused_extent_default emptyState 0 [] rfl rfl⟩

/-- Claim C2: under the transactional dispatch layer, an erroring call leaves the
persisted state exactly as it was — for every call of the pallet, every
environment and every starting state. -/
theorem dispatch_atomic {A : Type} [DecidableEq A] (cfg : Config) (env : Env A)
    (c : Call A) (s : State A) (e : Error)
    (h : (dispatchCall cfg env c s).1 = .error e) :
    (dispatchCall cfg env c s).2 = s := by
  unfold dispatchCall at h ⊢
  split at h
  · exact nomatch h
  · rfl

/-- Closed instance of `dispatch_atomic`: `authorize_account` failing with
`TooManyAuthorizations` (after the raw body already credited the scope)
leaves the dispatched state unchanged. -/
theorem dispatch_atomic_witness :
    (dispatchCall exCfgNoAuths exEnv
        (Call.authorize_account Origin.Root 5 1 100) emptyState).1 =
      Except.error Error.TooManyAuthorizations ∧
    (dispatchCall exCfgNoAuths exEnv
        (Call.authorize_account Origin.Root 5 1 100) emptyState).2 = emptyState :=
  ⟨rfl, dispatch_atomic exCfgNoAuths exEnv
    (Call.authorize_account Origin.Root 5 1 100) emptyState
    Error.TooManyAuthorizations rfl⟩

/-- Claim C5: consuming an authorization of size `size` from a scope
checked-subtracts one transaction and `size` bytes from the scope's
`unused` extent, failing with `NotAuthorized` and leaving the state
untouched when either subtraction would go negative, and on success
saturating-adds one transaction and `size` bytes to `used`. -/
theorem consume_authorization_spec {A : Type} [DecidableEq A]
    (scope : AuthorizationScope A) (size : Nat) (s : State A)
    (usage : AuthorizationUsage)
    (hu : (s.authorizationUsageByScope scope).getD AuthorizationUsage.zero = usage) :
    (usage.unused.transactions = 0 ∨ usage.unused.bytes < size →
      consumeAuthorization scope size s = (.error .NotAuthorized, s)) ∧
    (1 ≤ usage.unused.transactions → size ≤ usage.unused.bytes →
      consumeAuthorization scope size s =
        (.ok (), { s with authorizationUsageByScope :=
            (Function.update s.authorizationUsageByScope scope
              (some { used := ⟨satAdd32 usage.used.transactions 1,
                               satAdd64 usage.used.bytes size⟩,
                      unused := ⟨usage.unused.transactions - 1,
                                 usage.unused.bytes - size⟩ })) })) := by
  unfold consumeAuthorization checkedSub
  rw [hu]
  dsimp only
  constructor
  · rintro (h | h)
    · rw [if_neg (by omega)]
    · by_cases ht : 1 ≤ usage.unused.transactions
      · rw [if_pos ht]
        dsimp only
        rw [if_neg (by omega)]
      · rw [if_neg ht]
  · intro ht hb
    rw [if_pos ht]
    dsimp only
    rw [if_pos hb]

/-- Closed instance of `consume_authorization_spec`, the spec's scenario:
a scope with unused `{1, 100}` consumes `{1, 60}`, leaving
`unused = {0, 40}` and `used = {1, 60}`; a second consume attempt fails
`NotAuthorized` and changes nothing. -/
theorem consume_authorization_spec_witness :
    (consumeAuthorization (AuthorizationScope.Account 1) 60 exGrantState =
      (.ok (), { exGrantState with authorizationUsageByScope :=
          (Function.update exGrantState.authorizationUsageByScope
            (AuthorizationScope.Account 1)
            (some { used := ⟨satAdd32 0 1, satAdd64 0 60⟩,
                    unused := ⟨1 - 1, 100 - 60⟩ })) })) ∧
    (∀ s2 : State Nat,
      (s2.authorizationUsageByScope (AuthorizationScope.Account 1)).getD
          AuthorizationUsage.zero = ⟨⟨1, 60⟩, ⟨0, 40⟩⟩ →
      consumeAuthorization (AuthorizationScope.Account 1) 60 s2 =
        (.error .NotAuthorized, s2)) :=
  ⟨(consume_authorization_spec (AuthorizationScope.Account 1) 60 exGrantState
      ⟨⟨0, 0⟩, ⟨1, 100⟩⟩ rfl).2 (by decide) (by decide),
   fun s2 h2 =>
    (consume_authorization_spec (AuthorizationScope.Account 1) 60 s2
      ⟨⟨1, 60⟩, ⟨0, 40⟩⟩ h2).1 (Or.inr (by decide))⟩

/-- Claim C6: a grant fails with an arithmetic overflow error exactly when
`current_block + period` overflows the block-number type; otherwise it
saturating-adds the granted extent to the scope's `unused` extent and
appends `{scope, extent}` to the per-expiry grant list, failing with
`TooManyAuthorizations` when that list is at capacity. -/
theorem authorize_spec {A : Type} [DecidableEq A] (cfg : Config) (env : Env A)
    (scope : AuthorizationScope A) (t b : Nat) (s : State A)
    (usage : AuthorizationUsage)
    (hu : (s.authorizationUsageByScope scope).getD AuthorizationUsage.zero = usage) :
    (U32_LIMIT ≤ env.blockNumber + cfg.authorizationPeriod →
      authorize cfg env scope t b s = (.error .ArithmeticOverflow, s)) ∧
    (env.blockNumber + cfg.authorizationPeriod < U32_LIMIT →
      ((authorize cfg env scope t b s).2.authorizationUsageByScope scope =
        some { usage with
          unused := ⟨satAdd32 usage.unused.transactions t,
                     satAdd64 usage.unused.bytes b⟩ }) ∧
      (if (s.authorizationsByExpiry
            (env.blockNumber + cfg.authorizationPeriod)).length <
            cfg.maxBlockAuthorizationExpiries then
        (authorize cfg env scope t b s).1 = .ok () ∧
        (authorize cfg env scope t b s).2.authorizationsByExpiry
            (env.blockNumber + cfg.authorizationPeriod) =
          s.authorizationsByExpiry (env.blockNumber + cfg.authorizationPeriod) ++
            [⟨scope, ⟨t, b⟩⟩]
      else (authorize cfg env scope t b s).1 = .error .TooManyAuthorizations)) := by
  unfold authorize checkedAddBlock
  rw [hu]
  dsimp only
  constructor
  · intro h
    rw [if_neg (by omega)]
  · intro h
    rw [if_pos h]
    dsimp only
    constructor
    · split
      · simp [Function.update_same]
      · simp [Function.update_same]
    · split
      case isTrue hlen =>
        exact ⟨rfl, by simp [Function.update_same]⟩
      case isFalse hlen =>
        rfl

/-- Closed instance of `authorize_spec`: granting `{1, 100}` to a fresh
account scope at block 7 with period 10 appends to the expiry-17 list and
credits the scope. -/
theorem authorize_spec_witness :
    ((authorize exCfg exEnv (AuthorizationScope.Account 5) 1 100
        emptyState).2.authorizationUsageByScope (AuthorizationScope.Account 5) =
      some { AuthorizationUsage.zero with
        unused := ⟨satAdd32 0 1, satAdd64 0 100⟩ }) ∧
    (authorize exCfg exEnv (AuthorizationScope.Account 5) 1 100 emptyState).1 =
      .ok () ∧
    authorize exCfg exEnvOverflow (AuthorizationScope.Account 5) 1 100 emptyState =
      (.error .ArithmeticOverflow, emptyState) :=
  by
    have h := (authorize_spec exCfg exEnv (AuthorizationScope.Account 5) 1 100
      emptyState AuthorizationUsage.zero rfl).2 (by decide)
    refine ⟨h.1, ?_, ?_⟩
    · have h2 := h.2
      rw [if_pos (by decide)] at h2
      exact h2.1
    · exact (authorize_spec exCfg exEnvOverflow (AuthorizationScope.Account 5) 1 100
        emptyState AuthorizationUsage.zero rfl).1 (by decide)

/-- Claim C4: expiring a single recorded grant computes the unused portion of the
grant as `extent − used` (componentwise, saturating), saturating-subtracts
the grant's extent from the scope's `used` extent and the unused portion
from its `unused` extent, deletes the usage record exactly when it becomes
all-zero, touches no other scope, and `expire_authorizations` applies this
step to every grant recorded at the expiry block and clears the slot. -/
theorem expire_one_spec {A : Type} [DecidableEq A] (auth : Authorization A)
    (m : AuthorizationScope A → Option AuthorizationUsage) :
    (m auth.scope = none → expireOne auth m = m) ∧
    (∀ usage : AuthorizationUsage, m auth.scope = some usage →
      ((expireOne auth m) auth.scope =
        (if (⟨⟨usage.used.transactions - auth.extent.transactions,
              usage.used.bytes - auth.extent.bytes⟩,
             ⟨usage.unused.transactions -
                (auth.extent.transactions - usage.used.transactions),
              usage.unused.bytes - (auth.extent.bytes - usage.used.bytes)⟩⟩ :
            AuthorizationUsage) = AuthorizationUsage.zero then none
         else some ⟨⟨usage.used.transactions - auth.extent.transactions,
                     usage.used.bytes - auth.extent.bytes⟩,
                    ⟨usage.unused.transactions -
                       (auth.extent.transactions - usage.used.transactions),
                     usage.unused.bytes -
                       (auth.extent.bytes - usage.used.bytes)⟩⟩)) ∧
      (∀ sc, sc ≠ auth.scope → (expireOne auth m) sc = m sc) ∧
      ((expireOne auth m) auth.scope = none ↔
        (⟨⟨usage.used.transactions - auth.extent.transactions,
           usage.used.bytes - auth.extent.bytes⟩,
          ⟨usage.unused.transactions -
             (auth.extent.transactions - usage.used.transactions),
           usage.unused.bytes - (auth.extent.bytes - usage.used.bytes)⟩⟩ :
          AuthorizationUsage) = AuthorizationUsage.zero)) ∧
    (∀ (block : Nat) (s : State A),
      (expire_authorizations block s).authorizationUsageByScope =
        (s.authorizationsByExpiry block).foldl (fun mm a => expireOne a mm)
          s.authorizationUsageByScope ∧
      (expire_authorizations block s).authorizationsByExpiry block = []) := by
  refine ⟨?_, ?_, ?_⟩
  · intro h
    unfold expireOne
    rw [h]
  · intro usage h
    refine ⟨?_, ?_, ?_⟩
    · unfold expireOne
      rw [h]
      simp [Function.update_same]
    · intro sc hsc
      unfold expireOne
      rw [h]
      simp [Function.update_noteq hsc]
    · unfold expireOne
      rw [h]
      simp only [Function.update_same]
      split
      · simp_all
      · simp_all
  · intro block s
    exact ⟨rfl, by simp [expire_authorizations, Function.update_same]⟩

/-- Closed instance of `expire_one_spec`, the spec's expiry scenario: a
grant of `{1, 100}` expires on a scope with `used = {1, 60}` and
`unused = {0, 40}`; the unused portion is `{0, 40}`, both extents drop to
zero and the record is deleted. -/
theorem expire_one_spec_witness :
    exUsageMap exAuth.scope = some ⟨⟨1, 60⟩, ⟨0, 40⟩⟩ ∧
    (expireOne exAuth exUsageMap) exAuth.scope = none ∧
    expireOne exAuth (fun _ => none) = (fun _ => none) :=
  ⟨rfl, by
    have h := ((expire_one_spec exAuth exUsageMap).2.1 ⟨⟨1, 60⟩, ⟨0, 40⟩⟩ rfl).2.2
    exact h.mpr (by decide),
   (expire_one_spec exAuth (fun _ => none)).1 rfl⟩

/-- Claim C3: `check_proof` fails with `DoubleCheck` when the proof-checked
flag is already set; with `UnexpectedProof` when the target block number
(current block minus the storage period, saturating) is zero or the target
block's stored chunk count is zero; with `MissingStateData` when the
target block has no stored transaction list or the binary-search index
falls outside it; with `InvalidProof` when the trie proof fails
verification; and on success it sets the proof-checked flag. -/
theorem check_proof_spec {A : Type} [DecidableEq A] (cfg : Config) (env : Env A)
    (proof : TransactionStorageProof) (s : State A) :
    (s.proofChecked = true →
      check_proof cfg env Origin.NoOrigin proof s = (.error .DoubleCheck, s)) ∧
    (s.proofChecked = false →
      (env.blockNumber - cfg.storagePeriod = 0 ∨
          s.chunkCount (env.blockNumber - cfg.storagePeriod) = 0 →
        check_proof cfg env Origin.NoOrigin proof s = (.error .UnexpectedProof, s)) ∧
      (env.blockNumber - cfg.storagePeriod ≠ 0 →
        s.chunkCount (env.blockNumber - cfg.storagePeriod) ≠ 0 →
        (s.transactions (env.blockNumber - cfg.storagePeriod) = none →
          check_proof cfg env Origin.NoOrigin proof s = (.error .MissingStateData, s)) ∧
        (∀ infos, s.transactions (env.blockNumber - cfg.storagePeriod) = some infos →
          (lookupChunkInfo infos
              (env.randomChunk env.parentHash
                (s.chunkCount (env.blockNumber - cfg.storagePeriod))) = none →
            check_proof cfg env Origin.NoOrigin proof s =
              (.error .MissingStateData, s)) ∧
          (∀ info chunk_index,
            lookupChunkInfo infos
                (env.randomChunk env.parentHash
                  (s.chunkCount (env.blockNumber - cfg.storagePeriod))) =
              some (info, chunk_index) →
            (env.verifyProof info.chunk_root proof.proof
                (env.encodeIndex chunk_index) proof.chunk = false →
              check_proof cfg env Origin.NoOrigin proof s =
                (.error .InvalidProof, s)) ∧
            (env.verifyProof info.chunk_root proof.proof
                (env.encodeIndex chunk_index) proof.chunk = true →
              check_proof cfg env Origin.NoOrigin proof s =
                (.ok (), { s with proofChecked := true })))))) := by
  unfold check_proof
  dsimp only
  constructor
  · intro h
    rw [if_pos h]
  · intro h
    rw [if_neg (by simp [h])]
    constructor
    · rintro (h0 | h0)
      · rw [if_pos h0]
      · by_cases ht : env.blockNumber - cfg.storagePeriod = 0
        · rw [if_pos ht]
        · rw [if_neg ht]
          rw [if_pos h0]
    · intro ht hc
      rw [if_neg ht]
      rw [if_neg hc]
      constructor
      · intro hnone
        rw [hnone]
      · intro infos hinfos
        rw [hinfos]
        dsimp only
        constructor
        · intro hnone
          rw [hnone]
        · intro info chunk_index hl
          rw [hl]
          dsimp only
          constructor
          · intro hv
            simp [hv]
          · intro hv
            simp [hv]

/-- Closed instance of `check_proof_spec`: on a state holding the sample
block list at the target block, with a verifier accepting the proof,
`check_proof` succeeds and sets the proof-checked flag. -/
theorem check_proof_spec_witness :
    check_proof exCfg exEnv Origin.NoOrigin ⟨[0], [[0]]⟩ exProofState =
      (.ok (), { exProofState with proofChecked := true }) :=
  ((((((check_proof_spec exCfg exEnv ⟨[0], [[0]]⟩ exProofState).2 rfl).2
    (by decide) (by decide)).2 exInfos rfl).2 ⟨[3], [4], 768, 5⟩ 2
      (by decide)).2 rfl)

theorem consumeAuthorization_blockTransactions {A : Type} [DecidableEq A]
    (scope : AuthorizationScope A) (size : Nat) (s : State A) :
    ((consumeAuthorization scope size s).2).blockTransactions =
      s.blockTransactions := by
  unfold consumeAuthorization
  dsimp only
  split
  · rfl
  · split
    · rfl
    · rfl

theorem use_authorization_blockTransactions {A : Type} [DecidableEq A]
    (o : Origin A) (hash : PreimageHash) (size : Nat) (s : State A) :
    ((use_authorization o hash size s).2).blockTransactions =
      s.blockTransactions := by
  cases o with
  | Root => rfl
  | Signed who => exact consumeAuthorization_blockTransactions _ _ _
  | NoOrigin => exact consumeAuthorization_blockTransactions _ _ _

theorem satChainB_append (t : TransactionInfo) :
    ∀ (l : List TransactionInfo) (prev : Nat), satChainB prev l = true →
      t.block_chunks =
        satAdd32 (((l.getLast?).map fun u => u.block_chunks).getD prev)
          (num_chunks t.size) →
      satChainB prev (l ++ [t]) = true := by
  intro l
  induction l with
  | nil =>
    intro prev _ ht
    simp only [List.nil_append, satChainB, Bool.and_eq_true, beq_iff_eq]
    exact ⟨by simpa using ht, trivial⟩
  | cons a rest ih =>
    intro prev h ht
    simp only [satChainB, Bool.and_eq_true, beq_iff_eq] at h
    simp only [List.cons_append, satChainB, Bool.and_eq_true, beq_iff_eq]
    refine ⟨h.1, ih a.block_chunks h.2 ?_⟩
    cases rest with
    | nil => simpa using ht
    | cons b rest2 => simpa [List.getLast?_cons_cons] using ht

theorem satChainB_le (l : List TransactionInfo) :
    ∀ prev, prev ≤ U32_LIMIT - 1 → satChainB prev l = true →
      List.Chain' (fun a b => a ≤ b) (prev :: l.map fun t => t.block_chunks) := by
  induction l with
  | nil => intro prev _ _; simp
  | cons t rest ih =>
    intro prev hp h
    simp only [satChainB, Bool.and_eq_true, beq_iff_eq] at h
    simp only [List.map_cons]
    rw [List.chain'_cons]
    constructor
    · rw [h.1]
      unfold satAdd32
      exact le_min (Nat.le_add_right _ _) hp
    · exact ih t.block_chunks (by rw [h.1]; exact min_le_right _ _) h.2

theorem store_satChain {A : Type} [DecidableEq A] (cfg : Config) (env : Env A)
    (o : Origin A) (d : Bytes) (s : State A)
    (h : satChainB 0 s.blockTransactions = true) :
    satChainB 0 ((store cfg env o d s).2).blockTransactions = true := by
  have hbt := use_authorization_blockTransactions o (env.blake2_256 d) d.length s
  unfold store
  dsimp only
  split
  · exact h
  · split
    · exact h
    · rcases hu : use_authorization o (env.blake2_256 d) d.length s with ⟨r, s1⟩
      try rw [hu] at hbt
      try rw [hu]
      dsimp only at hbt
      cases r with
      | error e =>
        dsimp only
        rw [hbt]
        exact h
      | ok u =>
        dsimp only
        split
        · rw [hbt]; exact h
        · split
          · rw [hbt]; exact h
          · dsimp only
            rw [hbt]
            exact satChainB_append _ _ _ h rfl

theorem renew_satChain {A : Type} [DecidableEq A] (cfg : Config) (env : Env A)
    (o : Origin A) (b i : Nat) (s : State A)
    (h : satChainB 0 s.blockTransactions = true) :
    satChainB 0 ((renew cfg env o b i s).2).blockTransactions = true := by
  unfold renew
  dsimp only
  split
  · exact h
  · split
    · exact h
    · rename_i info heq2
      have hbt := use_authorization_blockTransactions o info.content_hash info.size s
      rcases hu : use_authorization o info.content_hash info.size s with ⟨r, s1⟩
      try rw [hu] at hbt
      try rw [hu]
      dsimp only at hbt
      cases r with
      | error e =>
        dsimp only
        rw [hbt]
        exact h
      | ok u =>
        dsimp only
        split
        · rw [hbt]; exact h
        · split
          · rw [hbt]; exact h
          · dsimp only
            rw [hbt]
            exact satChainB_append _ _ _ h rfl


/-- Claim C7: at finalization the accumulator is committed: the per-block
transaction list and chunk-count entry are stored exactly when the
accumulator's total chunk count (the last entry's cumulative count, or 0)
is non-zero, the stored chunk-count scalar equals that last cumulative
count, the accumulator (and the proof-checked flag) is reset, and —
since the empty accumulator satisfies the cumulative chain invariant and
`store`/`renew` preserve it — the committed list's cumulative counts,
each the saturating sum of the previous count and `num_chunks` of the
entry's size, are non-decreasing. -/
theorem on_finalize_commit {A : Type} [DecidableEq A] (cfg : Config) (env : Env A) :
    (satChainB 0 ([] : List TransactionInfo) = true) ∧
    (∀ (o : Origin A) (d : Bytes) (s : State A),
      satChainB 0 s.blockTransactions = true →
      satChainB 0 ((store cfg env o d s).2).blockTransactions = true) ∧
    (∀ (o : Origin A) (b i : Nat) (s : State A),
      satChainB 0 s.blockTransactions = true →
      satChainB 0 ((renew cfg env o b i s).2).blockTransactions = true) ∧
    (∀ (n : Nat) (s s' : State A), on_finalize cfg n s = some s' →
      s'.blockTransactions = [] ∧ s'.proofChecked = false ∧
      ((((s.blockTransactions.getLast?).map fun t => t.block_chunks).getD 0) ≠ 0 →
        s'.transactions n = some s.blockTransactions ∧
        s'.chunkCount n =
          (((s.blockTransactions.getLast?).map fun t => t.block_chunks).getD 0)) ∧
      ((((s.blockTransactions.getLast?).map fun t => t.block_chunks).getD 0) = 0 →
        s'.transactions = s.transactions ∧ s'.chunkCount = s.chunkCount) ∧
      (satChainB 0 s.blockTransactions = true →
        List.Chain' (fun a b => a ≤ b)
          (s.blockTransactions.map fun t => t.block_chunks))) := by
  refine ⟨rfl, store_satChain cfg env, renew_satChain cfg env, ?_⟩
  intro n s s' hf
  unfold on_finalize at hf
  split at hf
  case isFalse => exact nomatch hf
  case isTrue hcond =>
    injection hf with hf
    subst hf
    split
    case isTrue htot =>
      refine ⟨rfl, rfl, ?_, ?_, ?_⟩
      · intro _
        exact ⟨by simp [Function.update_same], by simp [Function.update_same]⟩
      · intro h0
        exact absurd h0 htot
      · intro hchain
        exact (satChainB_le s.blockTransactions 0 (by norm_num [U32_LIMIT]) hchain).tail
    case isFalse htot =>
      refine ⟨rfl, rfl, ?_, ?_, ?_⟩
      · intro hne
        exact absurd (by omega : ((s.blockTransactions.getLast?).map fun t => t.block_chunks).getD 0 = 0) hne
      · intro _
        exact ⟨rfl, rfl⟩
      · intro hchain
        exact (satChainB_le s.blockTransactions 0 (by norm_num [U32_LIMIT]) hchain).tail

/-- Closed instance of `on_finalize_commit`: finalizing a block whose
accumulator holds the sample three-item list stores the list and total 6
under block 9 and clears the accumulator and flag. -/
theorem on_finalize_commit_witness :
    on_finalize exCfg 9 exAccumState = some exCommittedState ∧
    (exCommittedState.blockTransactions = [] ∧
     exCommittedState.proofChecked = false ∧
     ((((exAccumState.blockTransactions.getLast?).map
          fun t => t.block_chunks).getD 0) ≠ 0 →
       exCommittedState.transactions 9 = some exAccumState.blockTransactions ∧
       exCommittedState.chunkCount 9 =
         (((exAccumState.blockTransactions.getLast?).map
            fun t => t.block_chunks).getD 0)) ∧
     ((((exAccumState.blockTransactions.getLast?).map
          fun t => t.block_chunks).getD 0) = 0 →
       exCommittedState.transactions = exAccumState.transactions ∧
       exCommittedState.chunkCount = exAccumState.chunkCount) ∧
     (satChainB 0 exAccumState.blockTransactions = true →
       List.Chain' (fun a b => a ≤ b)
         (exAccumState.blockTransactions.map fun t => t.block_chunks))) ∧
    satChainB 0
      ((store exCfg exEnv Origin.NoOrigin [1] emptyState).2).blockTransactions =
        true ∧
    satChainB 0
      ((renew exCfg exEnv Origin.NoOrigin 2 0 exProofState).2).blockTransactions =
        true :=
  ⟨rfl, (on_finalize_commit exCfg exEnv).2.2.2 9 exAccumState exCommittedState rfl,
   (on_finalize_commit exCfg exEnv).2.1 Origin.NoOrigin [1] emptyState rfl,
   (on_finalize_commit exCfg exEnv).2.2.1 Origin.NoOrigin 2 0 exProofState rfl⟩



theorem num_chunks_pos (n : Nat) (h1 : 0 < n) (h2 : n < U32_LIMIT) :
    0 < num_chunks n := by
  have h32 : U32_LIMIT = 4294967296 := by norm_num [U32_LIMIT]
  have h64 : U64_LIMIT = 18446744073709551616 := by norm_num [U64_LIMIT]
  simp only [num_chunks, satAdd64, CHUNK_SIZE, h32, h64] at *
  omega

theorem getD_eq_get {α : Type} (l : List α) (d : α) :
    ∀ (j : Nat) (h : j < l.length), l.getD j d = l.get ⟨j, h⟩ := by
  induction l with
  | nil => intro j h; exact absurd h (by simp)
  | cons a rest ih =>
    intro j h
    cases j with
    | zero => rfl
    | succ j2 => exact ih j2 (by simpa using h)

theorem getLast?_map_getD (l : List TransactionInfo) :
    ∀ (h : 0 < l.length),
      ((l.getLast?).map fun t => t.block_chunks).getD 0 =
        (l.get ⟨l.length - 1, by omega⟩).block_chunks := by
  induction l with
  | nil => intro h; exact absurd h (by simp)
  | cons a rest ih =>
    intro h
    cases rest with
    | nil => rfl
    | cons b rest2 =>
      rw [List.getLast?_cons_cons, ih (by simp)]
      rfl

theorem bsGo_spec (f : Nat → Nat) (target len : Nat)
    (hmono : ∀ i j : Nat, i < j → j < len → f i < f j) :
    ∀ (fuel left right : Nat), left ≤ right → right ≤ len →
      right - left ≤ fuel →
      (∀ j, j < left → f j < target) →
      (∀ j, right ≤ j → j < len → target ≤ f j) →
      (∀ j, j < bsGo f target fuel left right → f j < target) ∧
      bsGo f target fuel left right ≤ len ∧
      (bsGo f target fuel left right < len →
        target ≤ f (bsGo f target fuel left right)) := by
  intro fuel
  induction fuel with
  | zero =>
    intro left right hlr hrl hf hl hr
    have hee : left = right := by omega
    subst hee
    simp only [bsGo]
    exact ⟨hl, by omega, fun hlt => hr left le_rfl hlt⟩
  | succ fuel ih =>
    intro left right hlr hrl hf hl hr
    simp only [bsGo]
    by_cases hc : left < right
    · rw [if_pos hc]
      by_cases h1 : f (left + (right - left) / 2) < target
      · rw [if_pos h1]
        refine ih (left + (right - left) / 2 + 1) right (by omega) hrl (by omega) ?_ hr
        intro j hj
        rcases Nat.lt_or_ge j (left + (right - left) / 2) with hj2 | hj2
        · exact lt_trans (hmono j (left + (right - left) / 2) hj2 (by omega)) h1
        · have hje : j = left + (right - left) / 2 := by omega
          subst hje
          exact h1
      · rw [if_neg h1]
        by_cases h2 : target < f (left + (right - left) / 2)
        · rw [if_pos h2]
          refine ih left (left + (right - left) / 2) (by omega) (by omega) (by omega) hl ?_
          intro j hj hjlen
          rcases Nat.eq_or_lt_of_le hj with hj2 | hj2
          · rw [← hj2]
            exact le_of_lt h2
          · exact le_of_lt (lt_trans h2 (hmono _ j hj2 hjlen))
        · rw [if_neg h2]
          have heq : f (left + (right - left) / 2) = target := by omega
          refine ⟨?_, by omega, fun _ => by omega⟩
          intro j hj
          have := hmono j (left + (right - left) / 2) hj (by omega)
          omega
    · rw [if_neg hc]
      have hee : left = right := by omega
      subst hee
      exact ⟨hl, by omega, fun hlt => hr left le_rfl hlt⟩

theorem chunksChainB_sizes (l : List TransactionInfo) :
    ∀ prev, chunksChainB prev l = true →
      ∀ t ∈ l, 0 < t.size ∧ t.size < U32_LIMIT := by
  induction l with
  | nil => intro prev _ t ht; exact absurd ht (by simp)
  | cons a rest ih =>
    intro prev h t ht
    simp only [chunksChainB, Bool.and_eq_true, beq_iff_eq, decide_eq_true_eq] at h
    rcases List.mem_cons.mp ht with rfl | ht2
    · exact ⟨h.1.1.2, h.1.2⟩
    · exact ih a.block_chunks h.2 t ht2

theorem chunksChainB_get_gt (l : List TransactionInfo) :
    ∀ prev, chunksChainB prev l = true →
      ∀ j (hj : j < l.length), prev < (l.get ⟨j, hj⟩).block_chunks := by
  induction l with
  | nil => intro prev _ j hj; exact absurd hj (by simp)
  | cons a rest ih =>
    intro prev h j hj
    simp only [chunksChainB, Bool.and_eq_true, beq_iff_eq, decide_eq_true_eq] at h
    have hpos : 0 < num_chunks a.size := num_chunks_pos a.size h.1.1.2 h.1.2
    cases j with
    | zero =>
      show prev < a.block_chunks
      omega
    | succ j2 =>
      have h2 := ih a.block_chunks h.2 j2 (by simpa using hj)
      exact lt_trans (show prev < a.block_chunks by omega) h2

theorem chunksChainB_strictMono (l : List TransactionInfo) :
    ∀ prev, chunksChainB prev l = true →
      ∀ i j (hi : i < l.length) (hj : j < l.length), i < j →
        (l.get ⟨i, hi⟩).block_chunks < (l.get ⟨j, hj⟩).block_chunks := by
  induction l with
  | nil => intro prev _ i j hi; exact absurd hi (by simp)
  | cons a rest ih =>
    intro prev h i j hi hj hij
    simp only [chunksChainB, Bool.and_eq_true, beq_iff_eq, decide_eq_true_eq] at h
    cases i with
    | zero =>
      cases j with
      | zero => omega
      | succ j2 =>
        exact chunksChainB_get_gt rest a.block_chunks h.2 j2 (by simpa using hj)
    | succ i2 =>
      cases j with
      | zero => omega
      | succ j2 =>
        exact ih a.block_chunks h.2 i2 j2 (by simpa using hi) (by simpa using hj)
          (by omega)

theorem chunksChainB_zero_step (l : List TransactionInfo) (prev : Nat)
    (h : chunksChainB prev l = true) (h0 : 0 < l.length) :
    (l.get ⟨0, h0⟩).block_chunks = prev + num_chunks (l.get ⟨0, h0⟩).size := by
  cases l with
  | nil => exact absurd h0 (by simp)
  | cons a rest =>
    simp only [chunksChainB, Bool.and_eq_true, beq_iff_eq, decide_eq_true_eq] at h
    exact h.1.1.1

theorem chunksChainB_succ_step (l : List TransactionInfo) :
    ∀ prev, chunksChainB prev l = true →
      ∀ j (hj : j + 1 < l.length),
        (l.get ⟨j + 1, hj⟩).block_chunks =
          (l.get ⟨j, by omega⟩).block_chunks +
            num_chunks (l.get ⟨j + 1, hj⟩).size := by
  induction l with
  | nil => intro prev _ j hj; exact absurd hj (by simp)
  | cons a rest ih =>
    intro prev h j hj
    simp only [chunksChainB, Bool.and_eq_true, beq_iff_eq, decide_eq_true_eq] at h
    cases j with
    | zero =>
      exact chunksChainB_zero_step rest a.block_chunks h.2 (by simpa using hj)
    | succ j2 =>
      exact ih a.block_chunks h.2 j2 (by simpa using hj)



/-- Claim C1 (amended): for every committed block list (whose cumulative
counts follow the exact chain construction without saturation) and every
global chunk index `k` below the block's total chunk count, the lookup in
`check_proof` returns the FIRST entry whose cumulative `block_chunks` is
`≥ k` (not `> k`), with in-item offset
`k − (block_chunks − chunks_for(size))`.  Whenever `k` is strictly below
that entry's cumulative count this is the entry whose chunk range
contains `k` and the offset lies inside the entry; but when `k` equals
the entry's cumulative count — the exact-match arm of the binary search —
the chunk `k` is owned by the following entry, and the returned offset
equals `chunks_for(size)`, one past the returned entry's last chunk. -/
theorem lookupChunkInfo_spec (infos : List TransactionInfo) (k : Nat)
    (hchain : chunksChainB 0 infos = true)
    (hk : k < ((infos.getLast?).map fun t => t.block_chunks).getD 0) :
    ∃ info offset, lookupChunkInfo infos k = some (info, offset) ∧
      info ∈ infos ∧
      k ≤ info.block_chunks ∧
      (∀ t ∈ infos, k ≤ t.block_chunks → info.block_chunks ≤ t.block_chunks) ∧
      offset = k - (info.block_chunks - num_chunks info.size) ∧
      info.block_chunks - num_chunks info.size ≤ k ∧
      (k < info.block_chunks → offset < num_chunks info.size) ∧
      (k = info.block_chunks → offset = num_chunks info.size) := by
  have hne : infos ≠ [] := by
    intro he
    subst he
    simp at hk
  have hlen : 0 < infos.length := List.length_pos.mpr hne
  have hmono : ∀ i j : Nat, i < j →
      j < (infos.map fun t => t.block_chunks).length →
      (infos.map fun t => t.block_chunks).getD i 0 <
        (infos.map fun t => t.block_chunks).getD j 0 := by
    intro i j hij hj
    have hj2 : j < infos.length := by
      rw [List.length_map] at hj
      exact hj
    rw [getD_eq_get _ 0 i (by rw [List.length_map]; omega),
        getD_eq_get _ 0 j (by rw [List.length_map]; exact hj2),
        List.get_map, List.get_map]
    exact chunksChainB_strictMono infos 0 hchain i j (by omega) hj2 hij
  obtain ⟨hA, hB, hC⟩ := bsGo_spec
    (fun i => (infos.map fun t => t.block_chunks).getD i 0) k
    (infos.map fun t => t.block_chunks).length hmono
    (infos.map fun t => t.block_chunks).length 0
    (infos.map fun t => t.block_chunks).length
    (by omega) le_rfl (by omega)
    (fun j hj => absurd hj (Nat.not_lt_zero j))
    (fun j hj1 hj2 => absurd hj1 (by omega))
  set r := bsGo (fun i => (infos.map fun t => t.block_chunks).getD i 0) k
    (infos.map fun t => t.block_chunks).length 0
    (infos.map fun t => t.block_chunks).length with hrdef
  have hmlen : (infos.map fun t => t.block_chunks).length = infos.length :=
    List.length_map _ _
  have hlast : ((infos.map fun t => t.block_chunks).getD (infos.length - 1) 0) =
      ((infos.getLast?).map fun t => t.block_chunks).getD 0 := by
    rw [getLast?_map_getD infos hlen,
        getD_eq_get _ 0 _ (by rw [List.length_map]; omega), List.get_map]
  have hAget : ∀ j (hj : j < infos.length), j < r →
      (infos.get ⟨j, hj⟩).block_chunks < k := by
    intro j hj hjr
    have h1 := hA j hjr
    rw [getD_eq_get _ 0 j (by rw [List.length_map]; exact hj),
        List.get_map] at h1
    exact h1
  have hrlt : r < (infos.map fun t => t.block_chunks).length := by
    rcases Nat.lt_or_ge r (infos.map fun t => t.block_chunks).length with h | h
    · exact h
    · exfalso
      have h1 := hA (infos.length - 1) (by omega)
      rw [hlast] at h1
      omega
  have hr2 : r < infos.length := by omega
  have hkle : k ≤ (infos.get ⟨r, hr2⟩).block_chunks := by
    have h1 := hC hrlt
    rw [getD_eq_get _ 0 _ (by exact hrlt), List.get_map] at h1
    exact h1
  have hstep : ∃ p, (infos.get ⟨r, hr2⟩).block_chunks =
      p + num_chunks (infos.get ⟨r, hr2⟩).size ∧ p ≤ k := by
    rcases Nat.eq_zero_or_pos r with hr0 | hrpos
    · refine ⟨0, ?_, Nat.zero_le k⟩
      have hgeq : infos.get ⟨r, hr2⟩ = infos.get ⟨0, hlen⟩ :=
        congrArg infos.get (Fin.ext hr0)
      rw [hgeq]
      have h0 := chunksChainB_zero_step infos 0 hchain hlen
      omega
    · obtain ⟨r2, hr2e⟩ : ∃ r2, r = r2 + 1 := ⟨r - 1, by omega⟩
      have hj1 : r2 + 1 < infos.length := by omega
      have hstep2 := chunksChainB_succ_step infos 0 hchain r2 hj1
      have hprevlt := hAget r2 (by omega) (by omega)
      refine ⟨(infos.get ⟨r2, by omega⟩).block_chunks, ?_, le_of_lt hprevlt⟩
      have hgeq : infos.get ⟨r, hr2⟩ = infos.get ⟨r2 + 1, hj1⟩ :=
        congrArg infos.get (Fin.ext hr2e)
      rw [hgeq]
      exact hstep2
  obtain ⟨p, hp1, hp2⟩ := hstep
  refine ⟨infos.get ⟨r, hr2⟩,
    k - ((infos.get ⟨r, hr2⟩).block_chunks -
      num_chunks (infos.get ⟨r, hr2⟩).size),
    ?_, List.get_mem infos r hr2, hkle, ?_, rfl, by omega,
    fun hlt => by omega, fun heq => by omega⟩
  · unfold lookupChunkInfo binarySearchByKey
    rw [← hrdef]
    dsimp only
    rw [List.get?_eq_get hr2]
  · intro t ht hkt
    obtain ⟨⟨j, hj⟩, rfl⟩ := List.mem_iff_get.mp ht
    rcases Nat.lt_or_ge j r with hjr | hjr
    · exact absurd hkt (Nat.not_le.mpr (hAget j hj hjr))
    · rcases Nat.eq_or_lt_of_le hjr with heq | hlt
      · subst heq
        exact le_rfl
      · exact le_of_lt (chunksChainB_strictMono infos 0 hchain r j hr2 hj hlt)

/-- Counterexample to claim C1 as stated: in the committed list with
cumulative chunk counts `[2, 5, 6]` (sizes 512, 768, 256), looking up the
valid global chunk index `k = 2` returns the FIRST item — whose chunk
range is `[0, 2)` and does NOT contain `2` — with offset `2`, instead of
the second item (range `[2, 5)`, offset `0`) that the claim requires. -/
theorem lookupChunkInfo_counterexample :
    chunksChainB 0 exInfos = true ∧
    2 < ((exInfos.getLast?).map fun t => t.block_chunks).getD 0 ∧
    lookupChunkInfo exInfos 2 =
      some (⟨[1], [2], 512, 2⟩, 2) ∧
    ¬ ((2:Nat) <
        (({ chunk_root := [1], content_hash := [2], size := 512,
            block_chunks := 2 } : TransactionInfo)).block_chunks) := by
  refine ⟨by decide, by decide, by decide, by decide⟩

/-- Closed instance of `lookupChunkInfo_spec` at the spec's scenario:
index 4 in the `[2, 5, 6]` list. -/
theorem lookupChunkInfo_spec_witness :
    chunksChainB 0 exInfos = true ∧
    4 < ((exInfos.getLast?).map fun t => t.block_chunks).getD 0 ∧
    (∃ info offset, lookupChunkInfo exInfos 4 = some (info, offset) ∧
      info ∈ exInfos ∧
      4 ≤ info.block_chunks ∧
      (∀ t ∈ exInfos, 4 ≤ t.block_chunks → info.block_chunks ≤ t.block_chunks) ∧
      offset = 4 - (info.block_chunks - num_chunks info.size) ∧
      info.block_chunks - num_chunks info.size ≤ 4 ∧
      (4 < info.block_chunks → offset < num_chunks info.size) ∧
      (4 = info.block_chunks → offset = num_chunks info.size)) :=
  ⟨by decide, by decide, lookupChunkInfo_spec exInfos 4 (by decide) (by decide)⟩


end TxStorage
